import Mathlib

/-!
# Verification of the remote-terminal session broker (`server.ts`)

This file gives a shallow embedding of the session-broker logic of
`server.ts` and proves properties of it.

Modelling choices, all read directly off the source:

* A `PersistentSession` is a mutable JS object referenced both from the
  `sessions` map and from each socket's `currentSession` closure variable.
  We model this aliasing with an explicit heap `objs : List (Nat × SessionObj)`
  keyed by an allocation counter `nextRef`; the `sessions` map becomes
  `table : List (String × Nat)` (insertion-ordered, as a JS `Map`), and each
  socket's `currentSession` pointer lives in `conns : List (String × Nat)`
  (absence of a key models `currentSession = null`).
* `Math.random().toString(36).slice(2, 10)` is an external random source; the
  generated id arrives as a field of the `createSession` message.
* Every outward effect — `socket.emit`, `io.emit`, `shell.write`,
  `shell.resize`, `shell.kill` — is recorded as an `Event`; a step returns
  the successor state together with the list of events it emitted, in
  emission order.
* JS strings are sequences of code units, modelled as `List Char`.
-/

namespace RemoteTerminal

/-- `MAX_SESSIONS` (server.ts line 16). -/
def MAX_SESSIONS : Nat := 5

/-- `SCROLLBACK_BUFFER_SIZE` (server.ts line 17). -/
def SCROLLBACK_BUFFER_SIZE : Nat := 50000

/-- The fields of a `PersistentSession` object (server.ts lines 19-27), minus
the process handle: the process is identified by the object's heap reference,
which the pty events (`ptyWrite`, `ptyKill`, ...) carry. -/
structure SessionObj where
  id : String
  name : String
  buffer : List Char
  socketId : Option String
  alive : Bool
  createdAt : Nat
deriving DecidableEq, Repr

/-- The heap of all session objects ever allocated, keyed by allocation
reference. JS objects survive as long as something references them, so the
heap never shrinks. -/
abbrev Heap := List (Nat × SessionObj)

/-- Dereference a session object. -/
def getObj (h : Heap) (r : Nat) : Option SessionObj := List.lookup r h

/-- Mutate the session object at reference `r` in place. -/
def updateObj (h : Heap) (r : Nat) (f : SessionObj → SessionObj) : Heap :=
  h.map (fun p => if p.1 = r then (p.1, f p.2) else p)

/-- `Map.set` semantics: replace the value at an existing key in place
(keeping its position, as a JS `Map` keeps insertion order), else append. -/
def setEntry {α β : Type} [BEq α] (k : α) (v : β) : List (α × β) → List (α × β)
  | [] => [(k, v)]
  | (k', v') :: t => if k' == k then (k, v) :: t else (k', v') :: setEntry k v t

/-- `Map.delete` semantics: drop the entry with the given key. -/
def eraseKey {α β : Type} [BEq α] (k : α) (l : List (α × β)) : List (α × β) :=
  l.filter (fun p => !(p.1 == k))

/-- One row of the session list sent in `sessions` events
(server.ts lines 52-54 and 199-201). -/
structure SessionInfo where
  id : String
  name : String
  connected : Bool
  createdAt : Nat
deriving DecidableEq, Repr

/-- Outward effects of the broker, in emission order: socket emits, broadcast
emits, and the pty effects `shell.write` / `shell.resize` / `shell.kill`
addressed by heap reference. -/
inductive Event where
  | sessionsTo (sock : String) (l : List SessionInfo)
  | sessionsAll (l : List SessionInfo)
  | sessionCreated (sock : String) (id name : String)
  | attached (sock : String) (id name : String)
  | output (sock : String) (data : List Char)
  | detached (sock : String) (id : String)
  | sessionExited (sock : String) (id : String) (exitCode : Int) (signal : Int)
  | error (sock : String) (msg : String)
  | ptyWrite (r : Nat) (data : List Char)
  | ptyResize (r : Nat) (cols rows : Int)
  | ptyKill (r : Nat)
deriving DecidableEq, Repr

/-- Inbound messages: the socket.io requests handled in server.ts lines
51-196, plus the two asynchronous pty callbacks (`onData`, `onExit`)
registered per session at creation, addressed by heap reference. The
`createSession` message carries the value produced by `generateId()` and the
value of `Date.now()` as external inputs. -/
inductive Msg where
  | listSessions (sock : String)
  | createSession (sock : String) (name : Option String) (genId : String) (now : Nat)
  | attach (sock : String) (sessionId : String)
  | input (sock : String) (data : List Char)
  | resize (sock : String) (cols rows : Int)
  | killSession (sock : String) (sessionId : String)
  | renameSession (sock : String) (id name : String)
  | disconnect (sock : String)
  | ptyData (r : Nat) (data : List Char)
  | ptyExit (r : Nat) (exitCode : Int) (signal : Int)
deriving DecidableEq, Repr

/-- The broker's whole mutable state. -/
structure ServerState where
  objs : Heap
  nextRef : Nat
  table : List (String × Nat)
  conns : List (String × Nat)
deriving DecidableEq, Repr

/-- The state at broker start: nothing allocated, empty table, no sockets
attached anywhere. -/
def initState : ServerState := ⟨[], 0, [], []⟩

/-- `Array.from(sessions.values()).filter(s => s.alive)`
(server.ts lines 52-53 / 199-200): alive sessions in table order. -/
def aliveSessions (s : ServerState) : List SessionObj :=
  s.table.filterMap (fun p =>
    (getObj s.objs p.2).bind (fun o => if o.alive then some o else none))

/-- The `{ id, name, connected: !!s.socketId, createdAt }` view
(server.ts lines 54 / 201). -/
def sessionList (s : ServerState) : List SessionInfo :=
  (aliveSessions s).map (fun o => ⟨o.id, o.name, o.socketId.isSome, o.createdAt⟩)

/-- The capacity error message `` `Max ${MAX_SESSIONS} sessions. Kill one first.` ``
(server.ts line 62); it names the configured maximum. -/
def capacityMsg : String :=
  "Max " ++ toString MAX_SESSIONS ++ " sessions. Kill one first."

/-- The attach error message `` `Session ${sessionId} not found` ``
(server.ts line 125). -/
def notFoundMsg (sessionId : String) : String :=
  "Session " ++ sessionId ++ " not found"

/-- The scrollback-buffer update of `shell.onData` (server.ts lines 93-96):
`session.buffer += data; if (session.buffer.length > cap) session.buffer =
session.buffer.slice(-cap)`. Note the faithful JS corner: `slice(-0)` is
`slice(0)`, the whole string, so capacity `0` does not truncate. -/
def appendOutput (cap : Nat) (buf data : List Char) : List Char :=
  let b := buf ++ data
  if cap < b.length then
    if cap = 0 then b else b.drop (b.length - cap)
  else b

/-- The `PersistentSession` literal of server.ts lines 81-89: fresh buffer,
`socketId: null`, `alive: true`. -/
def mkSession (genId name : String) (now : Nat) : SessionObj :=
  { id := genId, name := name, buffer := [], socketId := none,
    alive := true, createdAt := now }

/-- Handler of `create-session` (server.ts lines 59-119). The new session
object starts with `socketId: null` and neither it nor the requester's
`currentSession` pointer is touched afterwards: the server does not
auto-attach. -/
def handleCreate (s : ServerState) (sock : String) (nm : Option String)
    (genId : String) (now : Nat) : ServerState × List Event :=
  let n := (aliveSessions s).length
  if MAX_SESSIONS ≤ n then
    (s, [Event.error sock capacityMsg])
  else
    let name := nm.getD ("Shell " ++ toString (n + 1))
    let s' : ServerState :=
      { objs := s.objs ++ [(s.nextRef, mkSession genId name now)]
        nextRef := s.nextRef + 1
        table := setEntry genId s.nextRef s.table
        conns := s.conns }
    (s', [Event.sessionCreated sock genId name, Event.sessionsAll (sessionList s')])

/-- Handler of `attach` (server.ts lines 122-148). Event order: `detached` to
the previous holder (if a different socket), then `attached`, then the buffer
replay as one `output` event when the buffer is non-empty. -/
def handleAttach (s : ServerState) (sock sessionId : String) :
    ServerState × List Event :=
  match (List.lookup sessionId s.table).bind (fun r =>
      (getObj s.objs r).map (fun o => (r, o))) with
  | none => (s, [Event.error sock (notFoundMsg sessionId)])
  | some (r, o) =>
    if o.alive = false then (s, [Event.error sock (notFoundMsg sessionId)])
    else
      let evs0 : List Event :=
        match o.socketId with
        | some prev => if prev ≠ sock then [Event.detached prev sessionId] else []
        | none => []
      let objs1 : Heap :=
        match List.lookup sock s.conns with
        | some r2 =>
          match getObj s.objs r2 with
          | some o2 =>
            if o2.id ≠ sessionId then
              updateObj s.objs r2 (fun x => { x with socketId := none })
            else s.objs
          | none => s.objs
        | none => s.objs
      let objs2 := updateObj objs1 r (fun x => { x with socketId := some sock })
      let s' : ServerState :=
        { s with objs := objs2, conns := setEntry sock r s.conns }
      (s', evs0 ++ [Event.attached sock o.id o.name] ++
        (if 0 < o.buffer.length then [Event.output sock o.buffer] else []))

/-- Handler of `input` (server.ts lines 151-155): `if (currentSession?.alive)
currentSession.shell.write(data)`. The only guard is the socket's own
`currentSession` pointer and that object's `alive` flag. -/
def handleInput (s : ServerState) (sock : String) (data : List Char) :
    ServerState × List Event :=
  match (List.lookup sock s.conns).bind (fun r =>
      (getObj s.objs r).map (fun o => (r, o))) with
  | some (r, o) => if o.alive then (s, [Event.ptyWrite r data]) else (s, [])
  | none => (s, [])

/-- Handler of `resize` (server.ts lines 158-164): same guard as `input`,
dimensions clamped with `Math.max(_, 1)`. -/
def handleResize (s : ServerState) (sock : String) (cols rows : Int) :
    ServerState × List Event :=
  match (List.lookup sock s.conns).bind (fun r =>
      (getObj s.objs r).map (fun o => (r, o))) with
  | some (r, o) =>
    if o.alive then (s, [Event.ptyResize r (max cols 1) (max rows 1)]) else (s, [])
  | none => (s, [])

/-- Handler of `kill-session` (server.ts lines 167-178): if the id is in the
table, mark dead, clear the attachment, kill the process, delete the entry,
clear the killer's own `currentSession` if it points at this id, broadcast.
Otherwise do nothing at all (no error, no broadcast). -/
def handleKill (s : ServerState) (sock sessionId : String) :
    ServerState × List Event :=
  match (List.lookup sessionId s.table).bind (fun r =>
      (getObj s.objs r).map (fun o => (r, o))) with
  | none => (s, [])
  | some (r, _) =>
    let objs1 := updateObj s.objs r
      (fun x => { x with alive := false, socketId := none })
    let conns1 :=
      match List.lookup sock s.conns with
      | some rc =>
        match getObj objs1 rc with
        | some oc => if oc.id = sessionId then eraseKey sock s.conns else s.conns
        | none => s.conns
      | none => s.conns
    let s' : ServerState :=
      { objs := objs1, nextRef := s.nextRef,
        table := eraseKey sessionId s.table, conns := conns1 }
    (s', [Event.ptyKill r, Event.sessionsAll (sessionList s')])

/-- Handler of `rename-session` (server.ts lines 181-187). -/
def handleRename (s : ServerState) (_sock : String) (id name : String) :
    ServerState × List Event :=
  match List.lookup id s.table with
  | none => (s, [])
  | some r =>
    match getObj s.objs r with
    | none => (s, [])
    | some _ =>
      let s' : ServerState :=
        { s with objs := updateObj s.objs r (fun x => { x with name := name }) }
      (s', [Event.sessionsAll (sessionList s')])

/-- Handler of socket `disconnect` (server.ts lines 190-196): clear the
session's attachment and the socket's pointer; the session keeps running. -/
def handleDisconnect (s : ServerState) (sock : String) :
    ServerState × List Event :=
  match List.lookup sock s.conns with
  | none => (s, [])
  | some r =>
    let objs1 := updateObj s.objs r (fun x => { x with socketId := none })
    ({ s with objs := objs1, conns := eraseKey sock s.conns }, [])

/-- The `shell.onData` callback for the session at `r` (server.ts lines
91-101): append to the scrollback buffer with eviction, then forward the
chunk to the attached socket if any. -/
def handleData (s : ServerState) (r : Nat) (data : List Char) :
    ServerState × List Event :=
  match getObj s.objs r with
  | none => (s, [])
  | some o =>
    let objs1 := updateObj s.objs r
      (fun x => { x with buffer := appendOutput SCROLLBACK_BUFFER_SIZE x.buffer data })
    let s' : ServerState := { s with objs := objs1 }
    match o.socketId with
    | some k => (s', [Event.output k data])
    | none => (s', [])

/-- The `shell.onExit` callback for the session at `r` (server.ts lines
103-112): mark dead, notify the attached socket with the exit code and
signal, delete the session's id from the table, broadcast — all within this
one handler. -/
def handleExit (s : ServerState) (r : Nat) (exitCode signal : Int) :
    ServerState × List Event :=
  match getObj s.objs r with
  | none => (s, [])
  | some o =>
    let objs1 := updateObj s.objs r (fun x => { x with alive := false })
    let s' : ServerState :=
      { s with objs := objs1, table := eraseKey o.id s.table }
    let evs0 : List Event :=
      match o.socketId with
      | some k => [Event.sessionExited k o.id exitCode signal]
      | none => []
    (s', evs0 ++ [Event.sessionsAll (sessionList s')])

/-- One step of the broker: dispatch a message to its handler. -/
def step (s : ServerState) : Msg → ServerState × List Event
  | .listSessions sock => (s, [Event.sessionsTo sock (sessionList s)])
  | .createSession sock nm genId now => handleCreate s sock nm genId now
  | .attach sock sessionId => handleAttach s sock sessionId
  | .input sock data => handleInput s sock data
  | .resize sock cols rows => handleResize s sock cols rows
  | .killSession sock sessionId => handleKill s sock sessionId
  | .renameSession sock id name => handleRename s sock id name
  | .disconnect sock => handleDisconnect s sock
  | .ptyData r data => handleData s r data
  | .ptyExit r code sig => handleExit s r code sig

/-- Run a list of messages from a state; final state. -/
def runState (s : ServerState) : List Msg → ServerState
  | [] => s
  | m :: ms => runState (step s m).1 ms

/-- Run a list of messages from a state; all emitted events in order. -/
def runEvents (s : ServerState) : List Msg → List Event
  | [] => []
  | m :: ms => (step s m).2 ++ runEvents (step s m).1 ms

/-- The ids of every session object ever allocated during the run. -/
def allocatedIds (s : ServerState) : List String := s.objs.map (fun p => p.2.id)

/-- `generateId()` returned a value not equal to any previously generated id:
the overwhelmingly-likely behaviour of `Math.random().toString(36).slice(2,10)`,
but not one the code enforces. -/
def freshMsg (s : ServerState) : Msg → Bool
  | .createSession _ _ genId _ => !((allocatedIds s).contains genId)
  | _ => true

/-- Every id generated along the run is fresh. -/
def freshRun (s : ServerState) : List Msg → Bool
  | [] => true
  | m :: ms => freshMsg s m && freshRun (step s m).1 ms

/-! ## Association-list lemmas -/

section AListLemmas

variable {α β : Type} [BEq α] [LawfulBEq α]

theorem lookup_setEntry_self (k : α) (v : β) (l : List (α × β)) :
    List.lookup k (setEntry k v l) = some v := by
  induction l with
  | nil => simp [setEntry, List.lookup]
  | cons p t ih =>
    obtain ⟨ka, va⟩ := p
    by_cases hk : ka = k
    · subst hk; simp [setEntry, List.lookup]
    · simp [setEntry, List.lookup, beq_false_of_ne hk,
        beq_false_of_ne (Ne.symm hk), ih]

theorem lookup_setEntry_ne {k k' : α} (v : β) (l : List (α × β)) (h : k' ≠ k) :
    List.lookup k' (setEntry k v l) = List.lookup k' l := by
  induction l with
  | nil => simp [setEntry, List.lookup, beq_false_of_ne h]
  | cons p t ih =>
    obtain ⟨ka, va⟩ := p
    by_cases hk : ka = k
    · subst hk
      simp [setEntry, List.lookup, beq_false_of_ne h]
    · by_cases hq : k' = ka
      · subst hq
        simp [setEntry, List.lookup, beq_false_of_ne hk]
      · simp [setEntry, List.lookup, beq_false_of_ne hk, beq_false_of_ne hq, ih]

theorem mem_setEntry {k : α} {v : β} {l : List (α × β)} {p : α × β}
    (h : p ∈ setEntry k v l) : p = (k, v) ∨ p ∈ l := by
  induction l with
  | nil => simpa [setEntry] using h
  | cons q t ih =>
    obtain ⟨ka, va⟩ := q
    by_cases hk : ka = k
    · subst hk
      simp only [setEntry, beq_self_eq_true, if_true, List.mem_cons] at h
      rcases h with h | h
      · exact Or.inl h
      · exact Or.inr (List.mem_cons_of_mem _ h)
    · simp only [setEntry, beq_false_of_ne hk, Bool.false_eq_true, if_false,
        List.mem_cons] at h
      rcases h with h | h
      · exact Or.inr (by simp [h])
      · rcases ih h with h' | h'
        · exact Or.inl h'
        · exact Or.inr (List.mem_cons_of_mem _ h')

theorem length_setEntry_le (k : α) (v : β) (l : List (α × β)) :
    (setEntry k v l).length ≤ l.length + 1 := by
  induction l with
  | nil => simp [setEntry]
  | cons q t ih =>
    obtain ⟨ka, va⟩ := q
    by_cases hk : ka = k
    · subst hk; simp [setEntry]
    · simp only [setEntry, beq_false_of_ne hk, Bool.false_eq_true, if_false,
        List.length_cons]
      omega

theorem keys_setEntry (k : α) (v : β) (l : List (α × β)) :
    (setEntry k v l).map Prod.fst =
      if (List.lookup k l).isSome then l.map Prod.fst
      else l.map Prod.fst ++ [k] := by
  induction l with
  | nil => simp [setEntry, List.lookup]
  | cons q t ih =>
    obtain ⟨ka, va⟩ := q
    by_cases hk : ka = k
    · subst hk; simp [setEntry, List.lookup]
    · have h1 : (k == ka) = false := beq_false_of_ne (Ne.symm hk)
      simp only [setEntry, beq_false_of_ne hk, Bool.false_eq_true, if_false,
        List.map_cons, List.lookup_cons, h1, ih]
      by_cases hs : (List.lookup k t).isSome <;> simp [hs]

theorem setEntry_eq_of_lookup {k : α} {v : β} {l : List (α × β)}
    (h : List.lookup k l = some v) : setEntry k v l = l := by
  induction l with
  | nil => simp [List.lookup] at h
  | cons q t ih =>
    obtain ⟨ka, va⟩ := q
    by_cases hk : ka = k
    · subst hk
      simp only [List.lookup_cons, beq_self_eq_true] at h
      simp only [Option.some.injEq] at h
      simp [setEntry, h]
    · have h1 : (k == ka) = false := beq_false_of_ne (Ne.symm hk)
      simp only [List.lookup_cons, h1] at h
      simp [setEntry, beq_false_of_ne hk, ih h]

theorem lookup_eraseKey_self (k : α) (l : List (α × β)) :
    List.lookup k (eraseKey k l) = none := by
  induction l with
  | nil => simp [eraseKey, List.lookup]
  | cons q t ih =>
    obtain ⟨ka, va⟩ := q
    by_cases hk : ka = k
    · subst hk
      simpa [eraseKey, List.filter_cons] using ih
    · have h1 : (k == ka) = false := beq_false_of_ne (Ne.symm hk)
      simp only [eraseKey, List.filter_cons, beq_false_of_ne hk, Bool.not_false,
        if_true, List.lookup_cons, h1]
      simpa [eraseKey] using ih

theorem lookup_eraseKey_ne {k k' : α} (l : List (α × β)) (h : k' ≠ k) :
    List.lookup k' (eraseKey k l) = List.lookup k' l := by
  induction l with
  | nil => simp [eraseKey]
  | cons q t ih =>
    obtain ⟨ka, va⟩ := q
    by_cases hk : ka = k
    · subst hk
      simp only [eraseKey, List.filter_cons, beq_self_eq_true, Bool.not_true,
        Bool.false_eq_true, if_false, List.lookup_cons, beq_false_of_ne h]
      simpa [eraseKey] using ih
    · by_cases hq : k' = ka
      · subst hq
        simp [eraseKey, List.filter_cons, beq_false_of_ne hk, List.lookup_cons]
      · simp only [eraseKey, List.filter_cons, beq_false_of_ne hk, Bool.not_false,
          if_true, List.lookup_cons, beq_false_of_ne hq]
        simpa [eraseKey] using ih

omit [LawfulBEq α] in
theorem mem_eraseKey {k : α} {l : List (α × β)} {p : α × β}
    (h : p ∈ eraseKey k l) : p ∈ l :=
  List.mem_of_mem_filter h

omit [LawfulBEq α] in
theorem length_eraseKey_le (k : α) (l : List (α × β)) :
    (eraseKey k l).length ≤ l.length :=
  List.length_filter_le _ l

omit [LawfulBEq α] in
theorem keys_eraseKey_sublist (k : α) (l : List (α × β)) :
    ((eraseKey k l).map Prod.fst).Sublist (l.map Prod.fst) :=
  (List.filter_sublist l).map Prod.fst

theorem lookup_append_some {k : α} {v : β} {l₁ l₂ : List (α × β)}
    (h : List.lookup k l₁ = some v) :
    List.lookup k (l₁ ++ l₂) = some v := by
  induction l₁ with
  | nil => simp [List.lookup] at h
  | cons q t ih =>
    obtain ⟨ka, va⟩ := q
    by_cases hk : k = ka
    · subst hk
      simp only [List.lookup_cons, beq_self_eq_true] at h
      simp only [List.cons_append, List.lookup_cons, beq_self_eq_true]
      simpa using h
    · have h1 : (k == ka) = false := beq_false_of_ne hk
      simp only [List.lookup_cons, h1] at h
      simp only [List.cons_append, List.lookup_cons, h1]
      exact ih h

theorem lookup_append_none {k : α} {l₁ l₂ : List (α × β)}
    (h : List.lookup k l₁ = none) :
    List.lookup k (l₁ ++ l₂) = List.lookup k l₂ := by
  induction l₁ with
  | nil => simp
  | cons q t ih =>
    obtain ⟨ka, va⟩ := q
    by_cases hk : k = ka
    · subst hk
      simp [List.lookup_cons, beq_self_eq_true] at h
    · have h1 : (k == ka) = false := beq_false_of_ne hk
      simp only [List.lookup_cons, h1] at h
      simp only [List.cons_append, List.lookup_cons, h1]
      exact ih h

theorem lookup_mem {k : α} {v : β} {l : List (α × β)}
    (h : List.lookup k l = some v) : (k, v) ∈ l := by
  induction l with
  | nil => simp [List.lookup] at h
  | cons q t ih =>
    obtain ⟨ka, va⟩ := q
    by_cases hk : k = ka
    · subst hk
      simp only [List.lookup_cons, beq_self_eq_true] at h
      simp only [Option.some.injEq] at h
      simp [h]
    · have h1 : (k == ka) = false := beq_false_of_ne hk
      simp only [List.lookup_cons, h1] at h
      exact List.mem_cons_of_mem _ (ih h)

theorem length_filterMap_of_all_some {γ δ : Type} {f : γ → Option δ}
    {l : List γ} (h : ∀ a ∈ l, (f a).isSome) :
    (l.filterMap f).length = l.length := by
  induction l with
  | nil => simp
  | cons a t ih =>
    have ha : (f a).isSome := h a (List.mem_cons_self a t)
    obtain ⟨b, hb⟩ := Option.isSome_iff_exists.mp ha
    rw [List.filterMap_cons, hb]
    simp [ih (fun x hx => h x (List.mem_cons_of_mem _ hx))]

end AListLemmas

/-! ## Heap lemmas -/

theorem getObj_updateObj (h : Heap) (r : Nat) (f : SessionObj → SessionObj)
    (x : Nat) :
    getObj (updateObj h r f) x =
      (getObj h x).map (fun o => if x = r then f o else o) := by
  induction h with
  | nil => simp [getObj, updateObj, List.lookup]
  | cons p t ih =>
    obtain ⟨rp, op⟩ := p
    by_cases hx : x = rp
    · subst hx
      by_cases hr : x = r
      · subst hr
        simp [getObj, updateObj, List.lookup_cons]
      · simp [getObj, updateObj, List.lookup_cons, hr]
    · have h1 : (x == rp) = false := beq_false_of_ne hx
      have hg2 : getObj ((rp, op) :: t) x = getObj t x := by
        simp [getObj, List.lookup_cons, h1]
      by_cases hr : rp = r
      · subst hr
        have hg : getObj (updateObj ((rp, op) :: t) rp f) x
            = getObj (updateObj t rp f) x := by
          simp [getObj, updateObj, List.lookup_cons, h1]
        rw [hg, hg2, ih]
      · have hg : getObj (updateObj ((rp, op) :: t) r f) x
            = getObj (updateObj t r f) x := by
          simp [getObj, updateObj, List.lookup_cons, h1, hr]
        rw [hg, hg2, ih]

theorem keys_updateObj (h : Heap) (r : Nat) (f : SessionObj → SessionObj) :
    (updateObj h r f).map Prod.fst = h.map Prod.fst := by
  induction h with
  | nil => rfl
  | cons p t ih =>
    by_cases hr : p.1 = r
    · simp only [updateObj, List.map_cons, if_pos hr]
      simpa [updateObj] using ih
    · simp only [updateObj, List.map_cons, if_neg hr]
      simpa [updateObj] using ih

/-! ## Ring-buffer lemmas -/

/-- The suffix of the last (at most) `cap` units of a list; `lastCap cap l = l`
whenever `l.length ≤ cap` because `Nat` subtraction truncates at zero. -/
def lastCap (cap : Nat) (l : List Char) : List Char := l.drop (l.length - cap)

theorem appendOutput_eq_lastCap {cap : Nat} (hcap : 0 < cap)
    (buf data : List Char) :
    appendOutput cap buf data = lastCap cap (buf ++ data) := by
  have hne : ¬ cap = 0 := by omega
  by_cases hlt : cap < buf.length + data.length
  · simp [appendOutput, lastCap, List.length_append, hlt, hne]
  · have h0 : buf.length + data.length - cap = 0 := by omega
    simp [appendOutput, lastCap, List.length_append, hlt, h0]

theorem length_lastCap_le (cap : Nat) (l : List Char) :
    (lastCap cap l).length ≤ cap := by
  unfold lastCap
  rw [List.length_drop]
  omega

theorem lastCap_of_le {cap : Nat} {l : List Char} (h : l.length ≤ cap) :
    lastCap cap l = l := by
  unfold lastCap
  rw [Nat.sub_eq_zero_of_le h, List.drop_zero]

theorem lastCap_append_lastCap (cap : Nat) (s d : List Char) :
    lastCap cap (lastCap cap s ++ d) = lastCap cap (s ++ d) := by
  by_cases hs : s.length ≤ cap
  · rw [lastCap_of_le hs]
  · have hcap : cap < s.length := by omega
    have hk1 : s.length - cap ≤ s.length := by omega
    have hlen : (s.drop (s.length - cap)).length = cap := by
      rw [List.length_drop]; omega
    have h1 : lastCap cap s = s.drop (s.length - cap) := rfl
    rw [h1]
    have h2 : lastCap cap (s.drop (s.length - cap) ++ d)
        = (s.drop (s.length - cap) ++ d).drop d.length := by
      unfold lastCap
      rw [List.length_append, hlen]
      congr 1
      omega
    have h3 : lastCap cap (s ++ d)
        = (s ++ d).drop ((s.length - cap) + d.length) := by
      unfold lastCap
      rw [List.length_append]
      congr 1
      omega
    have htk : (s.take (s.length - cap)).length = s.length - cap := by
      rw [List.length_take]; omega
    have hda := @List.drop_append Char (s.take (s.length - cap))
      (s.drop (s.length - cap) ++ d) d.length
    rw [htk] at hda
    have hsd : s ++ d
        = s.take (s.length - cap) ++ (s.drop (s.length - cap) ++ d) := by
      rw [← List.append_assoc, List.take_append_drop]
    rw [h2, h3, hsd, hda]

theorem foldl_appendOutput {cap : Nat} (hcap : 0 < cap)
    (chunks : List (List Char)) :
    ∀ s : List Char,
      chunks.foldl (appendOutput cap) (lastCap cap s)
        = lastCap cap (s ++ chunks.flatten) := by
  induction chunks with
  | nil => intro s; simp
  | cons c cs ih =>
    intro s
    rw [List.foldl_cons, appendOutput_eq_lastCap hcap,
      lastCap_append_lastCap, ih (s ++ c)]
    rw [List.flatten_cons, List.append_assoc]

theorem vals_updateObj {γ : Type} (g : SessionObj → γ) (h : Heap) (r : Nat)
    (f : SessionObj → SessionObj) (hf : ∀ o, g (f o) = g o) :
    (updateObj h r f).map (fun p => g p.2) = h.map (fun p => g p.2) := by
  induction h with
  | nil => rfl
  | cons p t ih =>
    by_cases hr : p.1 = r
    · simp only [updateObj, List.map_cons, if_pos hr, hf]
      simpa [updateObj] using ih
    · simp only [updateObj, List.map_cons, if_neg hr]
      simpa [updateObj] using ih

/-! ## More association-list helpers -/

theorem mem_eraseKey_ne {α β : Type} [BEq α] [LawfulBEq α] {k : α}
    {l : List (α × β)} {p : α × β} (h : p ∈ eraseKey k l) :
    p ∈ l ∧ ¬ p.1 = k := by
  refine ⟨List.mem_of_mem_filter h, ?_⟩
  have h2 := List.of_mem_filter h
  simpa using h2

theorem lookup_append_singleton {α β : Type} [BEq α] [LawfulBEq α]
    {k k' : α} {v w : β} {l : List (α × β)}
    (h : List.lookup k (l ++ [(k', v)]) = some w) :
    List.lookup k l = some w ∨ (List.lookup k l = none ∧ k = k' ∧ w = v) := by
  cases hc : List.lookup k l with
  | some u =>
    left
    rw [lookup_append_some hc] at h
    exact h
  | none =>
    right
    rw [lookup_append_none hc] at h
    by_cases hk : k = k'
    · subst hk
      simp [List.lookup] at h
      exact ⟨rfl, rfl, h.symm⟩
    · simp [List.lookup, beq_false_of_ne hk] at h

theorem lookup_eq_none_of_not_mem_keys {α β : Type} [BEq α] [LawfulBEq α]
    {k : α} {l : List (α × β)} (h : k ∉ l.map Prod.fst) :
    List.lookup k l = none := by
  rw [List.lookup_eq_none_iff]
  intro p hp
  have : p.1 ∈ l.map Prod.fst := List.mem_map_of_mem Prod.fst hp
  have : ¬ k = p.1 := fun he => h (he ▸ this)
  simpa using this

/-! ## Reachability invariants

`Inv0` holds of every state reachable from `initState`, with no assumption
on the values `generateId()` returned:

* `RefsOkC`: heap references are exactly `0, …, nextRef - 1`, in order;
* `TableOkC`: every table entry dereferences to an alive session object
  whose `id` field is the entry's key;
* the table never holds more than `MAX_SESSIONS` entries.
-/

def RefsOkC (objs : Heap) (nextRef : Nat) : Prop :=
  objs.map Prod.fst = List.range nextRef

def TableOkC (objs : Heap) (table : List (String × Nat)) : Prop :=
  ∀ p ∈ table, ∃ o, getObj objs p.2 = some o ∧ o.alive = true ∧ o.id = p.1

def Inv0 (s : ServerState) : Prop :=
  RefsOkC s.objs s.nextRef ∧ TableOkC s.objs s.table
    ∧ s.table.length ≤ MAX_SESSIONS

/-- Destructure the scrutinee shared by the attach/input/resize/kill
handlers: a table (or pointer) lookup followed by a heap dereference. -/
theorem bind_pair_eq_some {tbl : List (String × Nat)} {objs : Heap}
    {key : String} {r : Nat} {o : SessionObj}
    (h : ((List.lookup key tbl).bind fun x =>
        (getObj objs x).map (fun y => (x, y))) = some (r, o)) :
    List.lookup key tbl = some r ∧ getObj objs r = some o := by
  rw [Option.bind_eq_some] at h
  obtain ⟨r', hb, hmap⟩ := h
  rw [Option.map_eq_some'] at hmap
  obtain ⟨o', hg, hpair⟩ := hmap
  injection hpair with h1 h2
  subst h1
  subst h2
  exact ⟨hb, hg⟩

theorem getObj_nextRef_eq_none {objs : Heap} {nextRef : Nat}
    (h : RefsOkC objs nextRef) : getObj objs nextRef = none := by
  apply lookup_eq_none_of_not_mem_keys
  rw [h]
  simp

/-- Under `TableOkC` the `filter(s => s.alive)` in the create handler keeps
every table entry, so the capacity guard compares the table size itself. -/
theorem aliveSessions_length {s : ServerState} (h : TableOkC s.objs s.table) :
    (aliveSessions s).length = s.table.length := by
  unfold aliveSessions
  apply length_filterMap_of_all_some
  intro p hp
  obtain ⟨o, hgo, hal, _⟩ := h p hp
  simp [hgo, hal]

theorem tableOkC_updateObj {objs : Heap} {table : List (String × Nat)}
    (hT : TableOkC objs table) (r : Nat) (f : SessionObj → SessionObj)
    (hal : ∀ o, (f o).alive = o.alive) (hid : ∀ o, (f o).id = o.id) :
    TableOkC (updateObj objs r f) table := by
  intro p hp
  obtain ⟨o, ho, hoa, hoi⟩ := hT p hp
  refine ⟨if p.2 = r then f o else o, ?_, ?_, ?_⟩
  · rw [getObj_updateObj, ho]
    rfl
  · by_cases hpr : p.2 = r <;> simp [hpr, hal, hoa]
  · by_cases hpr : p.2 = r <;> simp [hpr, hid, hoi]

theorem tableOkC_erase_self {objs : Heap} {table : List (String × Nat)}
    {r : Nat} {o : SessionObj} (hT : TableOkC objs table)
    (ho : getObj objs r = some o) (f : SessionObj → SessionObj) :
    TableOkC (updateObj objs r f) (eraseKey o.id table) := by
  intro p hp
  obtain ⟨hpt, hpk⟩ := mem_eraseKey_ne hp
  obtain ⟨o3, hgo3, ha3, hi3⟩ := hT p hpt
  have hpr : ¬ p.2 = r := by
    intro he
    rw [he, ho] at hgo3
    obtain rfl : o = o3 := by simpa using hgo3
    exact hpk (hi3 ▸ rfl)
  refine ⟨o3, ?_, ha3, hi3⟩
  rw [getObj_updateObj, hgo3]
  simp [hpr]

theorem inv0_handleCreate {s : ServerState} (h : Inv0 s)
    (sock : String) (nm : Option String) (genId : String) (now : Nat) :
    Inv0 (handleCreate s sock nm genId now).1 := by
  obtain ⟨hR, hT, hL⟩ := h
  unfold handleCreate
  by_cases hcap : MAX_SESSIONS ≤ (aliveSessions s).length
  · simpa [hcap] using ⟨hR, hT, hL⟩
  · have hcnt : (aliveSessions s).length = s.table.length := aliveSessions_length hT
    simp only [hcap, if_false]
    refine ⟨?_, ?_, ?_⟩
    · show RefsOkC (s.objs ++ [(s.nextRef, _)]) (s.nextRef + 1)
      unfold RefsOkC at *
      rw [List.map_append, hR, List.range_succ]
      rfl
    · intro p hp
      rcases mem_setEntry hp with hnew | hold
      · subst hnew
        have hnone : List.lookup s.nextRef s.objs = none :=
          getObj_nextRef_eq_none hR
        refine ⟨mkSession genId (nm.getD ("Shell " ++ toString
            ((aliveSessions s).length + 1))) now, ?_, rfl, rfl⟩
        show List.lookup s.nextRef (s.objs ++ [(s.nextRef, mkSession genId
            (nm.getD ("Shell " ++ toString ((aliveSessions s).length + 1)))
            now)]) = _
        rw [lookup_append_none hnone]
        simp [List.lookup]
      · obtain ⟨o, hgo, hoa, hoi⟩ := hT p hold
        exact ⟨o, lookup_append_some hgo, hoa, hoi⟩
    · calc (setEntry genId s.nextRef s.table).length
          ≤ s.table.length + 1 := length_setEntry_le _ _ _
        _ ≤ MAX_SESSIONS := by omega

theorem inv0_handleAttach {s : ServerState} (h : Inv0 s) (sock sid : String) :
    Inv0 (handleAttach s sock sid).1 := by
  obtain ⟨hR, hT, hL⟩ := h
  unfold handleAttach
  split
  · exact ⟨hR, hT, hL⟩
  · next r o _ =>
    split
    · exact ⟨hR, hT, hL⟩
    · refine ⟨?_, ?_, hL⟩
      · unfold RefsOkC at *
        rw [keys_updateObj]
        split
        · split
          · split
            · rw [keys_updateObj]; exact hR
            · exact hR
          · exact hR
        · exact hR
      · dsimp only
        apply tableOkC_updateObj _ _
          (fun x => { x with socketId := some sock }) (fun o => rfl) (fun o => rfl)
        split
        · split
          · split
            · exact tableOkC_updateObj hT _
                (fun x => { x with socketId := none }) (fun o => rfl) (fun o => rfl)
            · exact hT
          · exact hT
        · exact hT

theorem inv0_handleKill {s : ServerState} (h : Inv0 s) (sock sid : String) :
    Inv0 (handleKill s sock sid).1 := by
  obtain ⟨hR, hT, hL⟩ := h
  unfold handleKill
  split
  · exact ⟨hR, hT, hL⟩
  · next r o heq =>
    obtain ⟨hlk, hgo⟩ := bind_pair_eq_some heq
    have hoid : o.id = sid := by
      obtain ⟨o3, hg3, _, hi3⟩ := hT (sid, r) (lookup_mem hlk)
      rw [hgo] at hg3
      obtain rfl : o = o3 := by simpa using hg3
      exact hi3
    refine ⟨?_, ?_, ?_⟩
    · unfold RefsOkC at *
      rw [keys_updateObj]
      exact hR
    · have := tableOkC_erase_self hT hgo
        (fun x => { x with alive := false, socketId := none })
      rw [hoid] at this
      exact this
    · exact le_trans (length_eraseKey_le _ _) hL

theorem inv0_handleRename {s : ServerState} (h : Inv0 s) (sock id nm : String) :
    Inv0 (handleRename s sock id nm).1 := by
  obtain ⟨hR, hT, hL⟩ := h
  unfold handleRename
  split
  · exact ⟨hR, hT, hL⟩
  · split
    · exact ⟨hR, hT, hL⟩
    · refine ⟨?_, ?_, hL⟩
      · unfold RefsOkC at *
        rw [keys_updateObj]
        exact hR
      · exact tableOkC_updateObj hT _
          (fun x => { x with name := nm }) (fun o => rfl) (fun o => rfl)

theorem inv0_handleDisconnect {s : ServerState} (h : Inv0 s) (sock : String) :
    Inv0 (handleDisconnect s sock).1 := by
  obtain ⟨hR, hT, hL⟩ := h
  unfold handleDisconnect
  split
  · exact ⟨hR, hT, hL⟩
  · refine ⟨?_, ?_, hL⟩
    · unfold RefsOkC at *
      rw [keys_updateObj]
      exact hR
    · exact tableOkC_updateObj hT _
        (fun x => { x with socketId := none }) (fun o => rfl) (fun o => rfl)

theorem inv0_handleData {s : ServerState} (h : Inv0 s) (r : Nat)
    (data : List Char) : Inv0 (handleData s r data).1 := by
  obtain ⟨hR, hT, hL⟩ := h
  unfold handleData
  split
  · exact ⟨hR, hT, hL⟩
  · split <;>
    · refine ⟨?_, ?_, hL⟩
      · unfold RefsOkC at *
        rw [keys_updateObj]
        exact hR
      · exact tableOkC_updateObj hT _
          (fun x => { x with
            buffer := appendOutput SCROLLBACK_BUFFER_SIZE x.buffer data })
          (fun o => rfl) (fun o => rfl)

theorem inv0_handleExit {s : ServerState} (h : Inv0 s) (r : Nat)
    (code sig : Int) : Inv0 (handleExit s r code sig).1 := by
  obtain ⟨hR, hT, hL⟩ := h
  unfold handleExit
  split
  · exact ⟨hR, hT, hL⟩
  · next o heq =>
    refine ⟨?_, ?_, ?_⟩
    · unfold RefsOkC at *
      rw [keys_updateObj]
      exact hR
    · exact tableOkC_erase_self hT heq (fun x => { x with alive := false })
    · exact le_trans (length_eraseKey_le _ _) hL

theorem inv0_step {s : ServerState} (h : Inv0 s) (m : Msg) :
    Inv0 (step s m).1 := by
  cases m with
  | listSessions sock => exact h
  | createSession sock nm gid now => exact inv0_handleCreate h sock nm gid now
  | attach sock sid => exact inv0_handleAttach h sock sid
  | input sock data =>
    show Inv0 (handleInput s sock data).1
    unfold handleInput
    split
    · split <;> exact h
    · exact h
  | resize sock c rws =>
    show Inv0 (handleResize s sock c rws).1
    unfold handleResize
    split
    · split <;> exact h
    · exact h
  | killSession sock sid => exact inv0_handleKill h sock sid
  | renameSession sock id nm => exact inv0_handleRename h sock id nm
  | disconnect sock => exact inv0_handleDisconnect h sock
  | ptyData r data => exact inv0_handleData h r data
  | ptyExit r code sig => exact inv0_handleExit h r code sig

theorem inv0_init : Inv0 initState := by
  refine ⟨rfl, ?_, ?_⟩
  · intro p hp
    simp [initState] at hp
  · simp [initState, MAX_SESSIONS]

theorem inv0_runState (msgs : List Msg) : Inv0 (runState initState msgs) := by
  suffices h : ∀ (s : ServerState), Inv0 s → Inv0 (runState s msgs) from
    h initState inv0_init
  induction msgs with
  | nil => intro s hs; exact hs
  | cons m ms ih =>
    intro s hs
    exact ih _ (inv0_step hs m)

/-! ## Fresh-run invariants

With the additional assumption that `generateId()` never repeated a value
(`freshRun`), every reachable state also satisfies:

* `IdsNodupC`: all session objects ever allocated carry pairwise distinct ids;
* `KeysNodupC`: table keys are pairwise distinct;
* `AliveInTableC`: every alive session object has its own table entry.

Together with `TableOkC` this gives the membership-iff-alive invariant.
-/

def IdsNodupC (objs : Heap) : Prop := (objs.map (fun p => p.2.id)).Nodup

def KeysNodupC (table : List (String × Nat)) : Prop :=
  (table.map Prod.fst).Nodup

def AliveInTableC (objs : Heap) (table : List (String × Nat)) : Prop :=
  ∀ r o, getObj objs r = some o → o.alive = true →
    List.lookup o.id table = some r

def InvF (s : ServerState) : Prop :=
  Inv0 s ∧ IdsNodupC s.objs ∧ KeysNodupC s.table
    ∧ AliveInTableC s.objs s.table

theorem idsNodupC_updateObj {objs : Heap} (hN : IdsNodupC objs) (r : Nat)
    (f : SessionObj → SessionObj) (hid : ∀ o, (f o).id = o.id) :
    IdsNodupC (updateObj objs r f) := by
  unfold IdsNodupC at *
  rw [vals_updateObj (fun o => o.id) objs r f hid]
  exact hN

theorem aliveInTableC_updateObj {objs : Heap} {table : List (String × Nat)}
    (hA : AliveInTableC objs table) (r' : Nat) (f : SessionObj → SessionObj)
    (hal : ∀ o, (f o).alive = o.alive) (hid : ∀ o, (f o).id = o.id) :
    AliveInTableC (updateObj objs r' f) table := by
  intro r o hgo hoa
  rw [getObj_updateObj, Option.map_eq_some'] at hgo
  obtain ⟨o0, hb, ho0⟩ := hgo
  subst ho0
  by_cases hr : r = r'
  · simp only [if_pos hr, hal] at hoa
    simp only [if_pos hr, hid]
    exact hA r o0 hb hoa
  · simp only [if_neg hr] at hoa ⊢
    exact hA r o0 hb hoa

theorem table_keys_mem_ids {objs : Heap} {table : List (String × Nat)}
    (hT : TableOkC objs table) :
    ∀ p ∈ table, p.1 ∈ objs.map (fun q => q.2.id) := by
  intro p hp
  obtain ⟨o, hgo, _, hoi⟩ := hT p hp
  have hm : (p.2, o) ∈ objs := lookup_mem hgo
  have := List.mem_map_of_mem (fun q => q.2.id) hm
  simpa [hoi] using this

/-- An alive object with `alive = false` after an `alive := false` update at
`r` must live at a different reference, unchanged. -/
theorem alive_after_dead_update {objs : Heap} {r r2 : Nat} {o2 : SessionObj}
    (f : SessionObj → SessionObj) (hf : ∀ x, (f x).alive = false)
    (hgo : getObj (updateObj objs r f) r2 = some o2)
    (hoa : o2.alive = true) :
    getObj objs r2 = some o2 ∧ ¬ r2 = r := by
  rw [getObj_updateObj, Option.map_eq_some'] at hgo
  obtain ⟨o0, hb, ho0⟩ := hgo
  subst ho0
  by_cases hr : r2 = r
  · rw [if_pos hr] at hoa
    rw [hf o0] at hoa
    simp at hoa
  · rw [if_neg hr] at hoa ⊢
    exact ⟨hb, hr⟩

theorem invF_handleCreate {s : ServerState} (hF : InvF s)
    (sock : String) (nm : Option String) {genId : String}
    (hfresh : genId ∉ allocatedIds s) (now : Nat) :
    InvF (handleCreate s sock nm genId now).1 := by
  obtain ⟨h0, hN, hK, hA⟩ := hF
  have h0' := inv0_handleCreate h0 sock nm genId now
  obtain ⟨hR, hT, hL⟩ := h0
  unfold handleCreate at h0' ⊢
  by_cases hcap : MAX_SESSIONS ≤ (aliveSessions s).length
  · simpa [hcap] using ⟨⟨hR, hT, hL⟩, hN, hK, hA⟩
  · simp only [hcap, if_false] at h0' ⊢
    have hgk : genId ∉ s.table.map Prod.fst := by
      intro hmem
      obtain ⟨p, hp, hp1⟩ := List.mem_map.mp hmem
      exact hfresh (hp1 ▸ table_keys_mem_ids hT p hp)
    have hlg : List.lookup genId s.table = none :=
      lookup_eq_none_of_not_mem_keys hgk
    refine ⟨h0', ?_, ?_, ?_⟩
    · unfold IdsNodupC at *
      rw [List.map_append]
      rw [List.nodup_append]
      refine ⟨hN, by simp, ?_⟩
      intro a ha hb
      simp [mkSession] at hb
      subst hb
      exact hfresh ha
    · unfold KeysNodupC at *
      rw [keys_setEntry, hlg]
      simp only [Option.isSome_none, Bool.false_eq_true, if_false]
      rw [List.nodup_append]
      refine ⟨hK, by simp, ?_⟩
      intro a ha hb
      simp only [List.mem_singleton] at hb
      subst hb
      exact hgk ha
    · intro r o hgo hoa
      rcases lookup_append_singleton hgo with hold | ⟨_, hrn, hon⟩
      · have hid_ne : ¬ o.id = genId := by
          intro he
          have hm : (r, o) ∈ s.objs := lookup_mem hold
          have : o.id ∈ allocatedIds s :=
            List.mem_map_of_mem (fun q => q.2.id) hm
          exact hfresh (he ▸ this)
        rw [lookup_setEntry_ne _ _ hid_ne]
        exact hA r o hold hoa
      · subst hrn
        subst hon
        show List.lookup (mkSession genId _ now).id
            (setEntry genId s.nextRef s.table) = some s.nextRef
        exact lookup_setEntry_self _ _ _

theorem refsOkC_updateObj {objs : Heap} {n : Nat} (h : RefsOkC objs n)
    (r : Nat) (f : SessionObj → SessionObj) : RefsOkC (updateObj objs r f) n := by
  unfold RefsOkC at *
  rw [keys_updateObj]
  exact h

/-- Packaging lemma: build `InvF` from its components for a literal state. -/
theorem invF_mk {objs : Heap} {nextRef : Nat} {table conns : List (String × Nat)}
    (h1 : RefsOkC objs nextRef) (h2 : TableOkC objs table)
    (h3 : table.length ≤ MAX_SESSIONS) (h4 : IdsNodupC objs)
    (h5 : KeysNodupC table) (h6 : AliveInTableC objs table) :
    InvF ⟨objs, nextRef, table, conns⟩ :=
  ⟨⟨h1, h2, h3⟩, h4, h5, h6⟩

theorem invF_handleAttach {s : ServerState} (hF : InvF s) (sock sid : String) :
    InvF (handleAttach s sock sid).1 := by
  obtain ⟨⟨hR, hT, hL⟩, hN, hK, hA⟩ := hF
  unfold handleAttach
  split
  · exact ⟨⟨hR, hT, hL⟩, hN, hK, hA⟩
  · split
    · exact ⟨⟨hR, hT, hL⟩, hN, hK, hA⟩
    · dsimp only
      have hbundle : ∀ h1 : Heap, RefsOkC h1 s.nextRef → TableOkC h1 s.table →
          IdsNodupC h1 → AliveInTableC h1 s.table →
          ∀ (r : Nat) (cs : List (String × Nat)),
          InvF ⟨updateObj h1 r (fun x => { x with socketId := some sock }),
            s.nextRef, s.table, cs⟩ := by
        intro h1 a b c d r cs
        exact invF_mk (refsOkC_updateObj a _ _)
          (tableOkC_updateObj b _ _ (fun o => rfl) (fun o => rfl)) hL
          (idsNodupC_updateObj c _ _ (fun o => rfl)) hK
          (aliveInTableC_updateObj d _ _ (fun o => rfl) (fun o => rfl))
      apply hbundle
      · split
        · split
          · split
            · exact refsOkC_updateObj hR _ _
            · exact hR
          · exact hR
        · exact hR
      · split
        · split
          · split
            · exact tableOkC_updateObj hT _
                (fun x => { x with socketId := none }) (fun o => rfl) (fun o => rfl)
            · exact hT
          · exact hT
        · exact hT
      · split
        · split
          · split
            · exact idsNodupC_updateObj hN _ _ (fun o => rfl)
            · exact hN
          · exact hN
        · exact hN
      · split
        · split
          · split
            · exact aliveInTableC_updateObj hA _
                (fun x => { x with socketId := none }) (fun o => rfl) (fun o => rfl)
            · exact hA
          · exact hA
        · exact hA

theorem invF_handleKill {s : ServerState} (hF : InvF s) (sock sid : String) :
    InvF (handleKill s sock sid).1 := by
  obtain ⟨⟨hR, hT, hL⟩, hN, hK, hA⟩ := hF
  unfold handleKill
  split
  · exact ⟨⟨hR, hT, hL⟩, hN, hK, hA⟩
  · next r o heq =>
    obtain ⟨hlk, hgo⟩ := bind_pair_eq_some heq
    have hoid : o.id = sid := by
      obtain ⟨o3, hg3, _, hi3⟩ := hT (sid, r) (lookup_mem hlk)
      rw [hgo] at hg3
      obtain rfl : o = o3 := by simpa using hg3
      exact hi3
    have hTnew : TableOkC
        (updateObj s.objs r (fun x => { x with alive := false, socketId := none }))
        (eraseKey sid s.table) := by
      have := tableOkC_erase_self hT hgo
        (fun x => { x with alive := false, socketId := none })
      rw [hoid] at this
      exact this
    have hAnew : AliveInTableC
        (updateObj s.objs r (fun x => { x with alive := false, socketId := none }))
        (eraseKey sid s.table) := by
      intro r2 o2 hgo2 hoa2
      obtain ⟨hb, hr2⟩ := alive_after_dead_update _ (fun x => rfl) hgo2 hoa2
      have hlk2 := hA r2 o2 hb hoa2
      have hne : ¬ o2.id = sid := by
        intro he
        rw [he, hlk] at hlk2
        exact hr2 (by simpa using hlk2 : r = r2).symm
      rw [lookup_eraseKey_ne _ hne]
      exact hlk2
    dsimp only
    split
    · split
      · split
        · exact invF_mk (refsOkC_updateObj hR _ _) hTnew
            (le_trans (length_eraseKey_le _ _) hL)
            (idsNodupC_updateObj hN _ _ (fun o => rfl))
            ((keys_eraseKey_sublist _ _).nodup hK) hAnew
        · exact invF_mk (refsOkC_updateObj hR _ _) hTnew
            (le_trans (length_eraseKey_le _ _) hL)
            (idsNodupC_updateObj hN _ _ (fun o => rfl))
            ((keys_eraseKey_sublist _ _).nodup hK) hAnew
      · exact invF_mk (refsOkC_updateObj hR _ _) hTnew
          (le_trans (length_eraseKey_le _ _) hL)
          (idsNodupC_updateObj hN _ _ (fun o => rfl))
          ((keys_eraseKey_sublist _ _).nodup hK) hAnew
    · exact invF_mk (refsOkC_updateObj hR _ _) hTnew
        (le_trans (length_eraseKey_le _ _) hL)
        (idsNodupC_updateObj hN _ _ (fun o => rfl))
        ((keys_eraseKey_sublist _ _).nodup hK) hAnew

theorem invF_handleExit {s : ServerState} (hF : InvF s) (r : Nat)
    (code sig : Int) : InvF (handleExit s r code sig).1 := by
  obtain ⟨⟨hR, hT, hL⟩, hN, hK, hA⟩ := hF
  unfold handleExit
  split
  · exact ⟨⟨hR, hT, hL⟩, hN, hK, hA⟩
  · next o heq =>
    have hAnew : AliveInTableC
        (updateObj s.objs r (fun x => { x with alive := false }))
        (eraseKey o.id s.table) := by
      intro r2 o2 hgo2 hoa2
      obtain ⟨hb, hr2⟩ := alive_after_dead_update _ (fun x => rfl) hgo2 hoa2
      have hlk2 := hA r2 o2 hb hoa2
      have hne : ¬ o2.id = o.id := by
        intro he
        have hm2 : (r2, o2) ∈ s.objs := lookup_mem hb
        have hm : (r, o) ∈ s.objs := lookup_mem heq
        have := List.inj_on_of_nodup_map hN hm2 hm he
        exact hr2 (congrArg Prod.fst this)
      rw [lookup_eraseKey_ne _ hne]
      exact hlk2
    dsimp only
    exact invF_mk (refsOkC_updateObj hR _ _)
      (tableOkC_erase_self hT heq (fun x => { x with alive := false }))
      (le_trans (length_eraseKey_le _ _) hL)
      (idsNodupC_updateObj hN _ _ (fun o => rfl))
      ((keys_eraseKey_sublist _ _).nodup hK) hAnew

theorem invF_step {s : ServerState} (hF : InvF s) {m : Msg}
    (hfresh : freshMsg s m = true) : InvF (step s m).1 := by
  obtain ⟨⟨hR, hT, hL⟩, hN, hK, hA⟩ := hF
  cases m with
  | listSessions sock => exact ⟨⟨hR, hT, hL⟩, hN, hK, hA⟩
  | createSession sock nm gid now =>
    have : gid ∉ allocatedIds s := by
      simpa [freshMsg] using hfresh
    exact invF_handleCreate ⟨⟨hR, hT, hL⟩, hN, hK, hA⟩ sock nm this now
  | attach sock sid =>
    exact invF_handleAttach ⟨⟨hR, hT, hL⟩, hN, hK, hA⟩ sock sid
  | input sock data =>
    show InvF (handleInput s sock data).1
    unfold handleInput
    split
    · split <;> exact ⟨⟨hR, hT, hL⟩, hN, hK, hA⟩
    · exact ⟨⟨hR, hT, hL⟩, hN, hK, hA⟩
  | resize sock c rws =>
    show InvF (handleResize s sock c rws).1
    unfold handleResize
    split
    · split <;> exact ⟨⟨hR, hT, hL⟩, hN, hK, hA⟩
    · exact ⟨⟨hR, hT, hL⟩, hN, hK, hA⟩
  | killSession sock sid =>
    exact invF_handleKill ⟨⟨hR, hT, hL⟩, hN, hK, hA⟩ sock sid
  | renameSession sock id nm =>
    show InvF (handleRename s sock id nm).1
    unfold handleRename
    split
    · exact ⟨⟨hR, hT, hL⟩, hN, hK, hA⟩
    · split
      · exact ⟨⟨hR, hT, hL⟩, hN, hK, hA⟩
      · exact invF_mk (refsOkC_updateObj hR _ _)
          (tableOkC_updateObj hT _
            (fun x => { x with name := nm }) (fun o => rfl) (fun o => rfl))
          hL (idsNodupC_updateObj hN _ _ (fun o => rfl)) hK
          (aliveInTableC_updateObj hA _
            (fun x => { x with name := nm }) (fun o => rfl) (fun o => rfl))
  | disconnect sock =>
    show InvF (handleDisconnect s sock).1
    unfold handleDisconnect
    split
    · exact ⟨⟨hR, hT, hL⟩, hN, hK, hA⟩
    · exact invF_mk (refsOkC_updateObj hR _ _)
        (tableOkC_updateObj hT _
          (fun x => { x with socketId := none }) (fun o => rfl) (fun o => rfl))
        hL (idsNodupC_updateObj hN _ _ (fun o => rfl)) hK
        (aliveInTableC_updateObj hA _
          (fun x => { x with socketId := none }) (fun o => rfl) (fun o => rfl))
  | ptyData r data =>
    show InvF (handleData s r data).1
    unfold handleData
    split
    · exact ⟨⟨hR, hT, hL⟩, hN, hK, hA⟩
    · split <;>
        exact invF_mk (refsOkC_updateObj hR _ _)
          (tableOkC_updateObj hT _
            (fun x => { x with
              buffer := appendOutput SCROLLBACK_BUFFER_SIZE x.buffer data })
            (fun o => rfl) (fun o => rfl))
          hL (idsNodupC_updateObj hN _ _ (fun o => rfl)) hK
          (aliveInTableC_updateObj hA _
            (fun x => { x with
              buffer := appendOutput SCROLLBACK_BUFFER_SIZE x.buffer data })
            (fun o => rfl) (fun o => rfl))
  | ptyExit r code sig =>
    exact invF_handleExit ⟨⟨hR, hT, hL⟩, hN, hK, hA⟩ r code sig

theorem invF_init : InvF initState := by
  refine ⟨inv0_init, ?_, ?_, ?_⟩
  · simp [IdsNodupC, initState]
  · simp [KeysNodupC, initState]
  · intro r o hgo
    simp [initState, getObj, List.lookup] at hgo

theorem invF_runState {msgs : List Msg}
    (h : freshRun initState msgs = true) : InvF (runState initState msgs) := by
  suffices hgen : ∀ (s : ServerState), InvF s → freshRun s msgs = true →
      InvF (runState s msgs) from hgen initState invF_init h
  clear h
  induction msgs with
  | nil => intro s hs _; exact hs
  | cons m ms ih =>
    intro s hs hf
    rw [freshRun, Bool.and_eq_true] at hf
    exact ih _ (invF_step hs hf.1) hf.2

/-! ## Dead sessions: no writes and no resizes ever again -/

/-- `e` is a write or resize delivered to the process of the session object
at heap reference `r`. -/
def writesTo (e : Event) (r : Nat) : Bool :=
  match e with
  | .ptyWrite r' _ => r' == r
  | .ptyResize r' _ _ => r' == r
  | _ => false

theorem dead_after_update {objs : Heap} {r : Nat}
    (h : ∃ o, getObj objs r = some o ∧ o.alive = false)
    (r' : Nat) (f : SessionObj → SessionObj)
    (hf : ∀ x, (f x).alive = x.alive ∨ (f x).alive = false) :
    ∃ o', getObj (updateObj objs r' f) r = some o' ∧ o'.alive = false := by
  obtain ⟨o, hg, ha⟩ := h
  refine ⟨if r = r' then f o else o, ?_, ?_⟩
  · rw [getObj_updateObj, hg]
    rfl
  · by_cases hr : r = r'
    · rcases hf o with hp | hp <;> simp [hr, hp, ha]
    · simp [hr, ha]

/-- No handler ever sets a session's `alive` back to `true`: once an object is
dead it stays dead, whatever message is processed next. -/
theorem dead_stays_dead {s : ServerState} {r : Nat} {o : SessionObj}
    (h : getObj s.objs r = some o) (ha : o.alive = false) (m : Msg) :
    ∃ o', getObj (step s m).1.objs r = some o' ∧ o'.alive = false := by
  cases m with
  | listSessions sock => exact ⟨o, h, ha⟩
  | createSession sock nm gid now =>
    show ∃ o', getObj (handleCreate s sock nm gid now).1.objs r = some o'
      ∧ o'.alive = false
    unfold handleCreate
    by_cases hcap : MAX_SESSIONS ≤ (aliveSessions s).length
    · simp only [hcap, if_true]
      exact ⟨o, h, ha⟩
    · simp only [hcap, if_false]
      exact ⟨o, lookup_append_some h, ha⟩
  | attach sock sid =>
    show ∃ o', getObj (handleAttach s sock sid).1.objs r = some o'
      ∧ o'.alive = false
    unfold handleAttach
    split
    · exact ⟨o, h, ha⟩
    · split
      · exact ⟨o, h, ha⟩
      · dsimp only
        apply dead_after_update
        · split
          · split
            · split
              · apply dead_after_update
                · exact ⟨o, h, ha⟩
                · intro x
                  exact Or.inl rfl
              · exact ⟨o, h, ha⟩
            · exact ⟨o, h, ha⟩
          · exact ⟨o, h, ha⟩
        · intro x
          exact Or.inl rfl
  | input sock data =>
    show ∃ o', getObj (handleInput s sock data).1.objs r = some o'
      ∧ o'.alive = false
    unfold handleInput
    split
    · split <;> exact ⟨o, h, ha⟩
    · exact ⟨o, h, ha⟩
  | resize sock c rws =>
    show ∃ o', getObj (handleResize s sock c rws).1.objs r = some o'
      ∧ o'.alive = false
    unfold handleResize
    split
    · split <;> exact ⟨o, h, ha⟩
    · exact ⟨o, h, ha⟩
  | killSession sock sid =>
    show ∃ o', getObj (handleKill s sock sid).1.objs r = some o'
      ∧ o'.alive = false
    unfold handleKill
    split
    · exact ⟨o, h, ha⟩
    · dsimp only
      apply dead_after_update
      · exact ⟨o, h, ha⟩
      · intro x
        exact Or.inr rfl
  | renameSession sock id nm =>
    show ∃ o', getObj (handleRename s sock id nm).1.objs r = some o'
      ∧ o'.alive = false
    unfold handleRename
    split
    · exact ⟨o, h, ha⟩
    · split
      · exact ⟨o, h, ha⟩
      · dsimp only
        apply dead_after_update
        · exact ⟨o, h, ha⟩
        · intro x
          exact Or.inl rfl
  | disconnect sock =>
    show ∃ o', getObj (handleDisconnect s sock).1.objs r = some o'
      ∧ o'.alive = false
    unfold handleDisconnect
    split
    · exact ⟨o, h, ha⟩
    · dsimp only
      apply dead_after_update
      · exact ⟨o, h, ha⟩
      · intro x
        exact Or.inl rfl
  | ptyData r2 data =>
    show ∃ o', getObj (handleData s r2 data).1.objs r = some o'
      ∧ o'.alive = false
    unfold handleData
    split
    · exact ⟨o, h, ha⟩
    · split <;>
      · dsimp only
        apply dead_after_update
        · exact ⟨o, h, ha⟩
        · intro x
          exact Or.inl rfl
  | ptyExit r2 code sig =>
    show ∃ o', getObj (handleExit s r2 code sig).1.objs r = some o'
      ∧ o'.alive = false
    unfold handleExit
    split
    · exact ⟨o, h, ha⟩
    · dsimp only
      apply dead_after_update
      · exact ⟨o, h, ha⟩
      · intro x
        exact Or.inr rfl

/-- One step emits no write or resize addressed to a dead session's process:
the `currentSession?.alive` guard of the input and resize handlers is the
only gate to `ptyWrite`/`ptyResize`, and it fails for a dead object. -/
theorem no_write_step {s : ServerState} {r : Nat} {o : SessionObj}
    (h : getObj s.objs r = some o) (ha : o.alive = false) (m : Msg) :
    ∀ e ∈ (step s m).2, writesTo e r = false := by
  cases m with
  | listSessions sock =>
    intro e he
    simp only [step, List.mem_singleton] at he
    subst he
    rfl
  | createSession sock nm gid now =>
    show ∀ e ∈ (handleCreate s sock nm gid now).2, writesTo e r = false
    unfold handleCreate
    by_cases hcap : MAX_SESSIONS ≤ (aliveSessions s).length
    · simp only [hcap, if_true]
      intro e he
      simp only [List.mem_singleton] at he
      subst he
      rfl
    · simp only [hcap, if_false]
      intro e he
      simp only [List.mem_cons, List.not_mem_nil, or_false] at he
      rcases he with he | he <;> (subst he; rfl)
  | attach sock sid =>
    show ∀ e ∈ (handleAttach s sock sid).2, writesTo e r = false
    unfold handleAttach
    split
    · intro e he
      simp only [List.mem_singleton] at he
      subst he
      rfl
    · next r0 o0 heq0 =>
      split
      · intro e he
        simp only [List.mem_singleton] at he
        subst he
        rfl
      · intro e he
        rcases List.mem_append.mp he with he | he
        · rcases List.mem_append.mp he with he | he
          · rcases hsk : o0.socketId with _ | prev
            · rw [hsk] at he
              simp at he
            · rw [hsk] at he
              dsimp only at he
              by_cases hps : prev ≠ sock
              · rw [if_pos hps] at he
                simp only [List.mem_singleton] at he
                subst he
                rfl
              · rw [if_neg hps] at he
                simp at he
          · simp only [List.mem_singleton] at he
            subst he
            rfl
        · by_cases hb : 0 < o0.buffer.length
          · rw [if_pos hb] at he
            simp only [List.mem_singleton] at he
            subst he
            rfl
          · rw [if_neg hb] at he
            simp at he
  | input sock data =>
    show ∀ e ∈ (handleInput s sock data).2, writesTo e r = false
    unfold handleInput
    split
    · next r0 o0 heq =>
      obtain ⟨hlk, hgo⟩ := bind_pair_eq_some heq
      split
      · next hal =>
        intro e he
        simp only [List.mem_singleton] at he
        subst he
        have hne : ¬ r0 = r := by
          intro hre
          rw [hre, h] at hgo
          obtain rfl : o0 = o := by simpa using hgo.symm
          rw [hal] at ha
          simp at ha
        simpa [writesTo] using hne
      · intro e he
        simp at he
    · intro e he
      simp at he
  | resize sock c rws =>
    show ∀ e ∈ (handleResize s sock c rws).2, writesTo e r = false
    unfold handleResize
    split
    · next r0 o0 heq =>
      obtain ⟨hlk, hgo⟩ := bind_pair_eq_some heq
      split
      · next hal =>
        intro e he
        simp only [List.mem_singleton] at he
        subst he
        have hne : ¬ r0 = r := by
          intro hre
          rw [hre, h] at hgo
          obtain rfl : o0 = o := by simpa using hgo.symm
          rw [hal] at ha
          simp at ha
        simpa [writesTo] using hne
      · intro e he
        simp at he
    · intro e he
      simp at he
  | killSession sock sid =>
    show ∀ e ∈ (handleKill s sock sid).2, writesTo e r = false
    unfold handleKill
    split
    · intro e he
      simp at he
    · intro e he
      simp only [List.mem_cons, List.not_mem_nil, or_false] at he
      rcases he with he | he <;> (subst he; rfl)
  | renameSession sock id nm =>
    show ∀ e ∈ (handleRename s sock id nm).2, writesTo e r = false
    unfold handleRename
    split
    · intro e he
      simp at he
    · split
      · intro e he
        simp at he
      · intro e he
        simp only [List.mem_singleton] at he
        subst he
        rfl
  | disconnect sock =>
    show ∀ e ∈ (handleDisconnect s sock).2, writesTo e r = false
    unfold handleDisconnect
    split
    · intro e he
      simp at he
    · intro e he
      simp at he
  | ptyData r2 data =>
    show ∀ e ∈ (handleData s r2 data).2, writesTo e r = false
    unfold handleData
    split
    · intro e he
      simp at he
    · split
      · intro e he
        simp only [List.mem_singleton] at he
        subst he
        rfl
      · intro e he
        simp at he
  | ptyExit r2 code sig =>
    show ∀ e ∈ (handleExit s r2 code sig).2, writesTo e r = false
    unfold handleExit
    split
    · intro e he
      simp at he
    · next o0 heq0 =>
      intro e he
      rcases List.mem_append.mp he with he | he
      · rcases hsk : o0.socketId with _ | k
        · rw [hsk] at he
          simp at he
        · rw [hsk] at he
          simp at he
          subst he
          rfl
      · simp only [List.mem_singleton] at he
        subst he
        rfl

/-- Run-level: once a session object is dead, no later message of any kind
produces a write or resize to its process. -/
theorem dead_no_write_run : ∀ (msgs : List Msg) (s : ServerState) (r : Nat)
    (o : SessionObj), getObj s.objs r = some o → o.alive = false →
    ∀ e ∈ runEvents s msgs, writesTo e r = false := by
  intro msgs
  induction msgs with
  | nil =>
    intro s r o h ha e he
    simp [runEvents] at he
  | cons m ms ih =>
    intro s r o h ha e he
    rw [runEvents] at he
    rcases List.mem_append.mp he with he | he
    · exact no_write_step h ha m e he
    · obtain ⟨o', h', ha'⟩ := dead_stays_dead h ha m
      exact ih _ r o' h' ha' e he

/-! ## Further helpers for the claim theorems -/

theorem mem_updateObj {h : Heap} {r : Nat} {f : SessionObj → SessionObj}
    {p : Nat × SessionObj} (hp : p ∈ updateObj h r f) :
    ∃ q ∈ h, p = if q.1 = r then (q.1, f q.2) else q := by
  unfold updateObj at hp
  obtain ⟨q, hq, hqe⟩ := List.mem_map.mp hp
  refine ⟨q, hq, ?_⟩
  by_cases hqr : q.1 = r
  · rw [if_pos hqr] at hqe ⊢
    exact hqe.symm
  · rw [if_neg hqr] at hqe ⊢
    exact hqe.symm

theorem eraseKey_eq_self {α β : Type} [BEq α] [LawfulBEq α] {k : α}
    {l : List (α × β)} (h : ∀ p ∈ l, ¬ p.1 = k) : eraseKey k l = l := by
  unfold eraseKey
  rw [List.filter_eq_self]
  intro p hp
  simpa using h p hp

theorem length_eraseKey_ge_of_nodup {α β : Type} [BEq α] [LawfulBEq α]
    (k : α) {l : List (α × β)} (h : (l.map Prod.fst).Nodup) :
    l.length ≤ (eraseKey k l).length + 1 := by
  induction l with
  | nil => simp [eraseKey]
  | cons q t ih =>
    obtain ⟨ka, va⟩ := q
    simp only [List.map_cons, List.nodup_cons] at h
    by_cases hk : ka = k
    · subst hk
      have ht : eraseKey ka t = t := by
        apply eraseKey_eq_self
        intro p hp hpk
        exact h.1 (hpk ▸ List.mem_map_of_mem Prod.fst hp)
      have hb : (!(ka == ka)) = false := by simp
      simp only [eraseKey, List.filter_cons, hb, Bool.false_eq_true, if_false,
        List.length_cons]
      have ht' : List.filter (fun p => !(p.1 == ka)) t = t := ht
      rw [ht']
    · have hb : (!(ka == k)) = true := by simp [hk]
      simp only [eraseKey, List.filter_cons, hb, if_true, List.length_cons]
      have := ih h.2
      simp only [eraseKey] at this
      omega

theorem step_createSession (s : ServerState) (sock : String)
    (nm : Option String) (gid : String) (now : Nat) :
    step s (Msg.createSession sock nm gid now)
      = handleCreate s sock nm gid now := rfl

theorem step_attach (s : ServerState) (sock sid : String) :
    step s (Msg.attach sock sid) = handleAttach s sock sid := rfl

theorem step_killSession (s : ServerState) (sock sid : String) :
    step s (Msg.killSession sock sid) = handleKill s sock sid := rfl

theorem step_ptyExit (s : ServerState) (r : Nat) (code sig : Int) :
    step s (Msg.ptyExit r code sig) = handleExit s r code sig := rfl

theorem handleKill_noop {s : ServerState} {sock sid : String}
    (h : ((List.lookup sid s.table).bind fun r =>
        (getObj s.objs r).map (fun o => (r, o))) = none) :
    handleKill s sock sid = (s, []) := by
  unfold handleKill
  rw [h]

/-! ## Claim theorems -/

/-- C3: For every sequence of chunks appended to a session's output buffer of
capacity `cap > 0` (the buffer-update of `shell.onData`, embedded as
`appendOutput`; the server applies it with `cap = SCROLLBACK_BUFFER_SIZE`),
the resulting buffer is exactly the last `cap` units of the concatenation of
all chunks — the whole concatenation when its total length is at most
`cap` — in original order, and its length never exceeds `cap`. -/
theorem c3_ring_buffer_round_trip (cap : Nat) (hcap : 0 < cap)
    (chunks : List (List Char)) :
    chunks.foldl (appendOutput cap) [] = lastCap cap chunks.flatten
    ∧ (chunks.foldl (appendOutput cap) []).length ≤ cap
    ∧ (chunks.flatten.length ≤ cap →
        chunks.foldl (appendOutput cap) [] = chunks.flatten) := by
  have h0 : lastCap cap ([] : List Char) = [] := by simp [lastCap]
  have hmain := foldl_appendOutput hcap chunks []
  rw [h0] at hmain
  simp only [List.nil_append] at hmain
  refine ⟨hmain, ?_, ?_⟩
  · rw [hmain]
    exact length_lastCap_le _ _
  · intro hle
    rw [hmain, lastCap_of_le hle]

/-- Witness for C3 at capacity 3 with chunks "ab", "cd": the buffer ends as
"bcd". -/
theorem c3_witness :
    [['a', 'b'], ['c', 'd']].foldl (appendOutput 3) []
      = lastCap 3 [['a', 'b'], ['c', 'd']].flatten :=
  (c3_ring_buffer_round_trip 3 (by decide) [['a', 'b'], ['c', 'd']]).1

/-- C10: once a session object's `alive` flag is `false` (set by kill or by
process exit, and never set back), no subsequent message of any kind — input
or resize from any connection included, even one whose `currentSession`
pointer still references the dead session — produces a `ptyWrite` or
`ptyResize` addressed to that session's process: the `currentSession?.alive`
guard makes the write branch unreachable. -/
theorem c10_dead_session_never_written (s : ServerState) (r : Nat)
    (o : SessionObj) (hgo : getObj s.objs r = some o) (ha : o.alive = false)
    (msgs : List Msg) :
    ∀ e ∈ runEvents s msgs, writesTo e r = false :=
  dead_no_write_run msgs s r o hgo ha

/-- Witness for C10: a dead session still pointed to by connection "c"; the
run handles an input, a resize and a list request, and the one event emitted
is not a write to process 0. -/
theorem c10_witness :
    writesTo (Event.sessionsTo "c" []) 0 = false :=
  c10_dead_session_never_written
    ⟨[(0, ⟨"s", "Shell 1", [], none, false, 0⟩)], 1, [], [("c", 0)]⟩ 0
    ⟨"s", "Shell 1", [], none, false, 0⟩ rfl rfl
    [Msg.input "c" ['x'], Msg.resize "c" 2 2, Msg.listSessions "c"]
    (Event.sessionsTo "c" []) (by decide)

/-- C1 (code bug): the failing input. Connection "c1" creates session "s1"
and attaches; connection "c2" then attaches, taking over the attachment
("c1" is sent `detached`, and the session's `socketId` is "c2"). The claim —
and spec §4.5 — say a subsequent input from "c1" must be silently dropped;
but the input handler only checks `currentSession?.alive` on "c1"'s own stale
pointer, so the keystroke IS written to "s1"'s process. -/
theorem c1_detached_input_reaches_process :
    getObj (runState initState [Msg.createSession "c1" none "s1" 0,
        Msg.attach "c1" "s1", Msg.attach "c2" "s1"]).objs 0
      = some ⟨"s1", "Shell 1", [], some "c2", true, 0⟩
    ∧ Event.detached "c1" "s1" ∈ runEvents initState
        [Msg.createSession "c1" none "s1" 0, Msg.attach "c1" "s1",
         Msg.attach "c2" "s1"]
    ∧ (step (runState initState [Msg.createSession "c1" none "s1" 0,
        Msg.attach "c1" "s1", Msg.attach "c2" "s1"])
        (Msg.input "c1" ['x'])).2 = [Event.ptyWrite 0 ['x']] := by
  decide

/-- C2 counterexample: after a successful create request by connection "c1",
the new session object's attachment (`socketId`) is `none` — not "c1" — and
"c1"'s current-session pointer is absent: the broker did not perform the
Unattached-to-Attached transition. -/
theorem c2_counterexample :
    (runState initState [Msg.createSession "c1" none "s1" 0]).conns = []
    ∧ getObj (runState initState [Msg.createSession "c1" none "s1" 0]).objs 0
        = some (mkSession "s1" "Shell 1" 0)
    ∧ (mkSession "s1" "Shell 1" 0).socketId = none := by
  decide

/-- C2 amended: on a successful create the broker inserts the session with
attachment `none` and leaves every connection's current-session pointer
unchanged; it emits `session-created` to the requester and broadcasts the
updated list, and nothing more — attachment only happens through a separate
attach request (which the bundled client sends upon `session-created`). -/
theorem c2_create_no_autoattach (msgs : List Msg) (sock : String)
    (nm : Option String) (gid : String) (now : Nat)
    (hcap : (aliveSessions (runState initState msgs)).length < MAX_SESSIONS) :
    (step (runState initState msgs) (Msg.createSession sock nm gid now)).1.conns
      = (runState initState msgs).conns
    ∧ getObj (step (runState initState msgs)
          (Msg.createSession sock nm gid now)).1.objs
        (runState initState msgs).nextRef
      = some (mkSession gid (nm.getD ("Shell " ++ toString
          ((aliveSessions (runState initState msgs)).length + 1))) now)
    ∧ (mkSession gid (nm.getD ("Shell " ++ toString
        ((aliveSessions (runState initState msgs)).length + 1))) now).socketId
      = none
    ∧ (step (runState initState msgs) (Msg.createSession sock nm gid now)).2
      = [Event.sessionCreated sock gid (nm.getD ("Shell " ++ toString
          ((aliveSessions (runState initState msgs)).length + 1))),
         Event.sessionsAll (sessionList (step (runState initState msgs)
           (Msg.createSession sock nm gid now)).1)] := by
  obtain ⟨hR, hT, hL⟩ := inv0_runState msgs
  have hcap' : ¬ MAX_SESSIONS ≤
      (aliveSessions (runState initState msgs)).length := Nat.not_le.mpr hcap
  rw [step_createSession]
  unfold handleCreate
  dsimp only
  rw [if_neg hcap']
  refine ⟨rfl, ?_, rfl, rfl⟩
  show List.lookup (runState initState msgs).nextRef
      ((runState initState msgs).objs ++ [((runState initState msgs).nextRef,
        mkSession gid _ now)]) = _
  rw [lookup_append_none (getObj_nextRef_eq_none hR)]
  simp [List.lookup]

/-- Witness for C2 amended, at the empty run: creating in the initial state
leaves the (empty) pointer map unchanged. -/
theorem c2_witness :
    (step (runState initState []) (Msg.createSession "c1" none "s1" 0)).1.conns
      = (runState initState []).conns :=
  (c2_create_no_autoattach [] "c1" none "s1" 0 (by decide)).1

/-- C6 counterexample: the id generator is `Math.random()`-based and the code
never checks for collisions. In the run in which `generateId()` returns "aa"
twice, both creates succeed, two alive session objects carry the same id, and
the second `sessions.set` overwrites the first session's table entry: the
first session is alive yet no longer in the table. -/
theorem c6_counterexample :
    allocatedIds (runState initState [Msg.createSession "c" none "aa" 0,
        Msg.createSession "c" none "aa" 1]) = ["aa", "aa"]
    ∧ (runState initState [Msg.createSession "c" none "aa" 0,
        Msg.createSession "c" none "aa" 1]).table = [("aa", 1)]
    ∧ getObj (runState initState [Msg.createSession "c" none "aa" 0,
        Msg.createSession "c" none "aa" 1]).objs 0
      = some (mkSession "aa" "Shell 1" 0)
    ∧ (mkSession "aa" "Shell 1" 0).alive = true := by
  decide

/-- C6 amended: provided the external id generator never returns a value
equal to the id of any session allocated before (`freshRun`) — which the code
relies on but does not enforce — all allocated ids are pairwise distinct, the
table keys are pairwise distinct, and every alive session still owns its own
table entry (so no insert ever overwrote an existing entry). -/
theorem c6_fresh_ids_unique (msgs : List Msg)
    (hf : freshRun initState msgs = true) :
    (allocatedIds (runState initState msgs)).Nodup
    ∧ ((runState initState msgs).table.map Prod.fst).Nodup
    ∧ ∀ r o, getObj (runState initState msgs).objs r = some o →
        o.alive = true →
        List.lookup o.id (runState initState msgs).table = some r :=
  ⟨(invF_runState hf).2.1, (invF_runState hf).2.2.1, (invF_runState hf).2.2.2⟩

/-- Witness for C6 amended: a run with two distinct generated ids. -/
theorem c6_witness :
    (allocatedIds (runState initState [Msg.createSession "c" none "aa" 0,
      Msg.createSession "c" none "bb" 1])).Nodup :=
  (c6_fresh_ids_unique [Msg.createSession "c" none "aa" 0,
    Msg.createSession "c" none "bb" 1] (by decide)).1

/-- C4: over every sequence of operations from broker start (create and kill
included), the number of alive sessions in the table never exceeds
`MAX_SESSIONS`; and a create request fails — returning the requester exactly
one `error` event carrying `capacityMsg`, which names the configured maximum,
with the whole state (table included) unchanged — precisely when the count of
alive sessions equals `MAX_SESSIONS`. -/
theorem c4_capacity_enforced (msgs : List Msg) (sock : String)
    (nm : Option String) (gid : String) (now : Nat) :
    (aliveSessions (runState initState msgs)).length ≤ MAX_SESSIONS
    ∧ ((aliveSessions (runState initState msgs)).length = MAX_SESSIONS ↔
        step (runState initState msgs) (Msg.createSession sock nm gid now)
          = (runState initState msgs, [Event.error sock capacityMsg])) := by
  obtain ⟨hR, hT, hL⟩ := inv0_runState msgs
  have hcnt := aliveSessions_length hT
  have hle : (aliveSessions (runState initState msgs)).length ≤ MAX_SESSIONS := by
    rw [hcnt]
    exact hL
  refine ⟨hle, ?_, ?_⟩
  · intro heq
    rw [step_createSession]
    unfold handleCreate
    dsimp only
    rw [if_pos (le_of_eq heq.symm)]
  · intro hstep
    by_contra hne
    have hlt : (aliveSessions (runState initState msgs)).length < MAX_SESSIONS :=
      Nat.lt_of_le_of_ne hle hne
    rw [step_createSession] at hstep
    unfold handleCreate at hstep
    dsimp only at hstep
    rw [if_neg (Nat.not_le.mpr hlt)] at hstep
    have h2 := congrArg Prod.snd hstep
    simp at h2

/-- Witness for C4: after five successful creates the count sits at the
maximum, and a sixth create returns exactly the capacity error with the state
unchanged. -/
theorem c4_witness :
    step (runState initState [Msg.createSession "c" none "a1" 0,
        Msg.createSession "c" none "a2" 1, Msg.createSession "c" none "a3" 2,
        Msg.createSession "c" none "a4" 3, Msg.createSession "c" none "a5" 4])
      (Msg.createSession "c" none "a6" 5)
      = (runState initState [Msg.createSession "c" none "a1" 0,
          Msg.createSession "c" none "a2" 1, Msg.createSession "c" none "a3" 2,
          Msg.createSession "c" none "a4" 3, Msg.createSession "c" none "a5" 4],
         [Event.error "c" capacityMsg]) :=
  ((c4_capacity_enforced [Msg.createSession "c" none "a1" 0,
      Msg.createSession "c" none "a2" 1, Msg.createSession "c" none "a3" 2,
      Msg.createSession "c" none "a4" 3, Msg.createSession "c" none "a5" 4]
    "c" none "a6" 5).2).mp (by decide)

/-- C8: kill is idempotent. Killing an id absent from the table (unknown, or
already removed because every dead session leaves the table) is a complete
no-op with no events — in particular no error. A second kill of the same id
right after a first one is likewise a no-op leaving the state unchanged, and
when the table keys are distinct (as in every reachable state) the first kill
removes at most one entry. -/
theorem c8_kill_idempotent (s : ServerState) (sock sock2 sid : String) :
    (List.lookup sid s.table = none → step s (Msg.killSession sock sid) = (s, []))
    ∧ step (step s (Msg.killSession sock sid)).1 (Msg.killSession sock2 sid)
        = ((step s (Msg.killSession sock sid)).1, [])
    ∧ ((s.table.map Prod.fst).Nodup →
        s.table.length ≤ (step s (Msg.killSession sock sid)).1.table.length + 1) := by
  simp only [step_killSession]
  refine ⟨?_, ?_, ?_⟩
  · intro hnone
    apply handleKill_noop
    rw [hnone]
    rfl
  · rcases hsc : ((List.lookup sid s.table).bind fun r =>
        (getObj s.objs r).map (fun o => (r, o))) with _ | ro
    · have h1 : handleKill s sock sid = (s, []) := handleKill_noop hsc
      rw [h1]
      exact handleKill_noop hsc
    · obtain ⟨r, o⟩ := ro
      have h1 : (handleKill s sock sid).1.table = eraseKey sid s.table := by
        unfold handleKill
        rw [hsc]
      apply handleKill_noop
      show ((List.lookup sid (handleKill s sock sid).1.table).bind fun x =>
          (getObj (handleKill s sock sid).1.objs x).map (fun y => (x, y))) = none
      rw [h1, lookup_eraseKey_self]
      rfl
  · intro hnodup
    rcases hsc : ((List.lookup sid s.table).bind fun r =>
        (getObj s.objs r).map (fun o => (r, o))) with _ | ro
    · rw [handleKill_noop hsc]
      exact Nat.le_succ _
    · obtain ⟨r, o⟩ := ro
      have h1 : (handleKill s sock sid).1.table = eraseKey sid s.table := by
        unfold handleKill
        rw [hsc]
      rw [h1]
      exact length_eraseKey_ge_of_nodup sid hnodup

/-- Witness for C8: killing session "aa" twice in a concrete one-session
state; the second kill leaves everything unchanged with no events, and a kill
of the unknown id "zz" in the initial state is a no-op. -/
theorem c8_witness :
    step initState (Msg.killSession "c" "zz") = (initState, [])
    ∧ step (step ⟨[(0, ⟨"aa", "Shell 1", [], none, true, 0⟩)], 1, [("aa", 0)],
          [("c", 0)]⟩ (Msg.killSession "c" "aa")).1 (Msg.killSession "c" "aa")
        = ((step ⟨[(0, ⟨"aa", "Shell 1", [], none, true, 0⟩)], 1, [("aa", 0)],
            [("c", 0)]⟩ (Msg.killSession "c" "aa")).1, []) :=
  ⟨(c8_kill_idempotent initState "c" "c" "zz").1 (by decide),
   (c8_kill_idempotent ⟨[(0, ⟨"aa", "Shell 1", [], none, true, 0⟩)], 1,
      [("aa", 0)], [("c", 0)]⟩ "c" "c" "aa").2.1⟩

/-- C5: when connection Y attaches to a live session currently attached to a
different connection X (and X holds no other session's attachment), the
emitted events are, in order: `detached` to X, then the `attached`
acknowledgment to Y carrying id and name, then — exactly when the buffer is
non-empty — the entire buffer as one `output` event to Y, before any later
live output (later events follow in the stream); afterwards the session's
attachment is Y and no session's attachment is X. -/
theorem c5_takeover_order (s : ServerState) (X Y i : String) (r : Nat)
    (o : SessionObj)
    (hlk : List.lookup i s.table = some r) (hgo : getObj s.objs r = some o)
    (hal : o.alive = true) (hsk : o.socketId = some X) (hXY : X ≠ Y)
    (hid : o.id = i)
    (honly : ∀ p ∈ s.objs, p.2.socketId = some X → p.1 = r) :
    (step s (Msg.attach Y i)).2
      = Event.detached X i :: Event.attached Y o.id o.name
        :: (if 0 < o.buffer.length then [Event.output Y o.buffer] else [])
    ∧ getObj (step s (Msg.attach Y i)).1.objs r
        = some { o with socketId := some Y }
    ∧ ∀ p ∈ (step s (Msg.attach Y i)).1.objs, ¬ p.2.socketId = some X := by
  have hsc : ((List.lookup i s.table).bind fun x =>
      (getObj s.objs x).map (fun y => (x, y))) = some (r, o) := by
    rw [hlk]
    simp [hgo]
  have main : ∀ h1 : Heap, getObj h1 r = some o →
      (∀ p ∈ h1, p.2.socketId = some X → p.1 = r) →
      getObj (updateObj h1 r (fun x => { x with socketId := some Y })) r
          = some { o with socketId := some Y }
      ∧ ∀ p ∈ updateObj h1 r (fun x => { x with socketId := some Y }),
          ¬ p.2.socketId = some X := by
    intro h1 hg1 hon1
    constructor
    · rw [getObj_updateObj, hg1]
      simp
    · intro p hp hpx
      obtain ⟨q, hq, hqe⟩ := mem_updateObj hp
      by_cases hqr : q.1 = r
      · rw [if_pos hqr] at hqe
        rw [hqe] at hpx
        simp at hpx
        exact hXY hpx.symm
      · rw [if_neg hqr] at hqe
        rw [hqe] at hpx
        exact hqr (hon1 q hq hpx)
  rw [step_attach]
  unfold handleAttach
  rw [hsc]
  dsimp only
  rw [if_neg (by simp [hal] : ¬ (o.alive = false))]
  rw [hsk]
  dsimp only
  rw [if_pos hXY]
  rcases hc : List.lookup Y s.conns with _ | r2
  · dsimp only
    obtain ⟨hga, hgb⟩ := main s.objs hgo honly
    exact ⟨rfl, hga, hgb⟩
  · dsimp only
    rcases hg2 : getObj s.objs r2 with _ | o2
    · dsimp only
      obtain ⟨hga, hgb⟩ := main s.objs hgo honly
      exact ⟨rfl, hga, hgb⟩
    · dsimp only
      by_cases hne : o2.id ≠ i
      · rw [if_pos hne]
        have hr2 : ¬ r2 = r := by
          intro he
          rw [he, hgo] at hg2
          obtain rfl : o = o2 := by simpa using hg2
          exact hne hid
        have hg1 : getObj (updateObj s.objs r2
            (fun x => { x with socketId := none })) r = some o := by
          rw [getObj_updateObj, hgo]
          have hrne : ¬ r = r2 := fun he => hr2 he.symm
          simp [hrne]
        have hon1 : ∀ p ∈ updateObj s.objs r2
            (fun x => { x with socketId := none }),
            p.2.socketId = some X → p.1 = r := by
          intro p hp hpx
          obtain ⟨q, hq, hqe⟩ := mem_updateObj hp
          by_cases hqr : q.1 = r2
          · rw [if_pos hqr] at hqe
            rw [hqe] at hpx
            simp at hpx
          · rw [if_neg hqr] at hqe
            rw [hqe] at hpx
            rw [hqe]
            exact honly q hq hpx
        obtain ⟨hga, hgb⟩ := main _ hg1 hon1
        exact ⟨rfl, hga, hgb⟩
      · rw [if_neg hne]
        obtain ⟨hga, hgb⟩ := main s.objs hgo honly
        exact ⟨rfl, hga, hgb⟩

/-- Witness for C5 at a concrete one-session state attached to "X": the
takeover by "Y" emits detached-then-attached-then-replay. -/
theorem c5_witness :
    (step ⟨[(0, ⟨"s", "Shell 1", ['h'], some "X", true, 0⟩)], 1, [("s", 0)],
        [("X", 0)]⟩ (Msg.attach "Y" "s")).2
      = Event.detached "X" "s" :: Event.attached "Y" "s" "Shell 1"
        :: (if 0 < (['h'] : List Char).length
            then [Event.output "Y" ['h']] else []) :=
  (c5_takeover_order ⟨[(0, ⟨"s", "Shell 1", ['h'], some "X", true, 0⟩)], 1,
      [("s", 0)], [("X", 0)]⟩ "X" "Y" "s" 0 ⟨"s", "Shell 1", ['h'], some "X",
      true, 0⟩ (by decide) rfl rfl rfl (by decide) rfl (by decide)).1

/-- C9: an attach request for session `i` by the connection X that already
holds its attachment emits no `detached` to anyone, leaves the attachment,
the table and the pointer map unchanged — and still sends X the `attached`
acknowledgment again followed, when the buffer is non-empty, by the full
buffer replay (the replay repeats). -/
theorem c9_same_socket_reattach (s : ServerState) (X i : String) (r : Nat)
    (o : SessionObj)
    (hlk : List.lookup i s.table = some r) (hgo : getObj s.objs r = some o)
    (hal : o.alive = true) (hsk : o.socketId = some X)
    (hconn : List.lookup X s.conns = some r) (hid : o.id = i) :
    (step s (Msg.attach X i)).2
      = Event.attached X o.id o.name
        :: (if 0 < o.buffer.length then [Event.output X o.buffer] else [])
    ∧ (∀ k j, Event.detached k j ∉ (step s (Msg.attach X i)).2)
    ∧ getObj (step s (Msg.attach X i)).1.objs r = some o
    ∧ (step s (Msg.attach X i)).1.table = s.table
    ∧ (step s (Msg.attach X i)).1.conns = s.conns := by
  have hsc : ((List.lookup i s.table).bind fun x =>
      (getObj s.objs x).map (fun y => (x, y))) = some (r, o) := by
    rw [hlk]
    simp [hgo]
  have hfo : { o with socketId := some X } = o := by
    rw [← hsk]
  rw [step_attach]
  unfold handleAttach
  rw [hsc]
  dsimp only
  rw [if_neg (by simp [hal] : ¬ (o.alive = false))]
  rw [hsk]
  dsimp only
  rw [if_neg (by simp : ¬ (X ≠ X))]
  rw [hconn]
  dsimp only
  rw [hgo]
  dsimp only
  rw [if_neg (by simp [hid] : ¬ (o.id ≠ i))]
  refine ⟨rfl, ?_, ?_, rfl, setEntry_eq_of_lookup hconn⟩
  · intro k j hmem
    rcases List.mem_cons.mp hmem with he | he
    · exact absurd he (by simp)
    · by_cases hb : 0 < o.buffer.length
      · rw [if_pos hb] at he
        simp at he
      · rw [if_neg hb] at he
        simp at he
  · rw [getObj_updateObj, hgo]
    simp [hfo]

/-- Witness for C9 at a concrete state where "X" is already attached to
session "s" (empty buffer): the acknowledgment repeats, no detached event. -/
theorem c9_witness :
    (step ⟨[(0, ⟨"s", "Shell 1", [], some "X", true, 0⟩)], 1, [("s", 0)],
        [("X", 0)]⟩ (Msg.attach "X" "s")).2
      = Event.attached "X" "s" "Shell 1"
        :: (if 0 < ([] : List Char).length then [Event.output "X" []] else []) :=
  (c9_same_socket_reattach ⟨[(0, ⟨"s", "Shell 1", [], some "X", true, 0⟩)], 1,
      [("s", 0)], [("X", 0)]⟩ "X" "s" 0 ⟨"s", "Shell 1", [], some "X", true, 0⟩
    (by decide) rfl rfl rfl (by decide) rfl).1

/-- C7 counterexample: in the reachable run where `generateId()` returns "aa"
twice, the first session object (heap reference 0) still has `alive = true`
but is no longer present in the table — its id's entry was overwritten to
point at the second session (reference 1). So "present in the table iff
alive" does not hold at every reachable state as claimed. -/
theorem c7_counterexample :
    getObj (runState initState [Msg.createSession "c" none "aa" 0,
        Msg.createSession "c" none "aa" 1]).objs 0
      = some (mkSession "aa" "Shell 1" 0)
    ∧ (mkSession "aa" "Shell 1" 0).alive = true
    ∧ List.lookup (mkSession "aa" "Shell 1" 0).id
        (runState initState [Msg.createSession "c" none "aa" 0,
          Msg.createSession "c" none "aa" 1]).table = some 1 := by
  decide

/-- C7 amended: in every state reachable under fresh generated ids (which the
code relies on but does not enforce), a session object is in the table
exactly when its `alive` flag is true; and handling a process-exit event for
a session sets `alive` to false, notifies the attached connection (if any)
with a `session-exited` event carrying exit code and signal, and removes the
session's id from the table — all inside that one event handler, not
lazily. -/
theorem c7_alive_iff_in_table (msgs : List Msg)
    (hf : freshRun initState msgs = true) :
    (∀ r o, getObj (runState initState msgs).objs r = some o →
      (o.alive = true ↔
        List.lookup o.id (runState initState msgs).table = some r))
    ∧ (∀ (r : Nat) (o : SessionObj) (code sig : Int),
        getObj (runState initState msgs).objs r = some o →
        (∃ o', getObj (step (runState initState msgs)
            (Msg.ptyExit r code sig)).1.objs r = some o' ∧ o'.alive = false)
        ∧ List.lookup o.id (step (runState initState msgs)
            (Msg.ptyExit r code sig)).1.table = none
        ∧ (∀ k, o.socketId = some k →
            Event.sessionExited k o.id code sig ∈
              (step (runState initState msgs) (Msg.ptyExit r code sig)).2)) := by
  obtain ⟨⟨hR, hT, hL⟩, hN, hK, hA⟩ := invF_runState hf
  constructor
  · intro r o hgo
    constructor
    · exact hA r o hgo
    · intro hlk
      obtain ⟨o3, hg3, ha3, _⟩ := hT (o.id, r) (lookup_mem hlk)
      rw [hgo] at hg3
      obtain rfl : o = o3 := by simpa using hg3
      exact ha3
  · intro r o code sig hgo
    rw [step_ptyExit]
    unfold handleExit
    rw [hgo]
    dsimp only
    refine ⟨⟨{ o with alive := false }, ?_, rfl⟩, ?_, ?_⟩
    · rw [getObj_updateObj, hgo]
      simp
    · exact lookup_eraseKey_self _ _
    · intro k hk
      rw [hk]
      dsimp only
      exact List.mem_cons_self _ _

/-- Witness for C7 at the fresh run that creates "aa", attaches "c" and lets
the process exit: the create leaves an alive object whose id is in the table. -/
theorem c7_witness :
    (mkSession "aa" "Shell 1" 0).alive = true ↔
      List.lookup (mkSession "aa" "Shell 1" 0).id
        (runState initState [Msg.createSession "c" none "aa" 0]).table
        = some 0 :=
  (c7_alive_iff_in_table [Msg.createSession "c" none "aa" 0] (by decide)).1 0
    (mkSession "aa" "Shell 1" 0) (by decide)

end RemoteTerminal
